import Mathlib

/-!
Shallow embedding of `src/types/payload.rs` (actix-web payload extractors):
the `HttpMessageBody` body aggregator, `PayloadConfig::check_mimetype`,
and `bytes_to_string`, together with theorems settling the frozen claims.

Bytes are modelled as `Nat` values (the code never does byte arithmetic,
only length arithmetic, so no wraparound is involved); `usize` lengths are
modelled as `Nat` with the parse function rejecting values that do not fit
in 64 bits, matching `str::parse::<usize>` on 64-bit platforms.
-/

/-- Embeds `actix_http::error::PayloadError` (the variants this module
produces or forwards). -/
inductive PayloadError
  | incomplete
  | encodingCorrupted
  | overflow
  | unknownLength
  | io
  deriving DecidableEq, Repr

/-- One event obtained from the chunk source by `poll_next`:
`Poll::Pending`, `Poll::Ready(Some(Ok(chunk)))`,
`Poll::Ready(Some(Err(e)))`, or `Poll::Ready(None)` (end of stream). -/
inductive StreamEvent
  | pending
  | chunk (c : List Nat)
  | error (e : PayloadError)
  | eos
  deriving DecidableEq, Repr

/-- Embeds a `HeaderValue`: either bytes that are not visible ASCII
(so `HeaderValue::to_str` fails) or a string. -/
inductive HeaderValue
  | opaqueBytes
  | ascii (s : String)
  deriving DecidableEq, Repr

/-- Embeds `str::parse::<usize>` (on a 64-bit platform): an optional
leading `+`, then one or more decimal digits, value below `2^64`. -/
def parseUsize (s : String) : Option Nat :=
  let digits := match s.data with
    | '+' :: rest => rest
    | cs => cs
  if digits = [] then none
  else if digits.all Char.isDigit then
    let v := digits.foldl (fun a c => a * 10 + (c.toNat - 48)) 0
    if v < 2 ^ 64 then some v else none
  else none

/-- Embeds `DEFAULT_CONFIG_LIMIT` (262,144 bytes, about 256kB). -/
def DEFAULT_CONFIG_LIMIT : Nat := 262144

/-- Embeds the state of `HttpMessageBody`: the active limit, the parsed
`Content-Length` (if any), the remaining chunk source, the accumulation
buffer, and the latched error. -/
structure HttpMessageBody where
  limit : Nat
  length : Option Nat
  stream : List StreamEvent
  buf : List Nat
  err : Option PayloadError
  deriving DecidableEq, Repr

/-- Embeds `HttpMessageBody::new`: reads the `Content-Length` header
(passed here already looked up, as `none` when absent), arming a latched
`UnknownLength` error when it is not a valid `usize`, and a latched
`Overflow` error when the parsed value exceeds the default limit.  The
chunk source is taken from the request (`payload`). -/
def HttpMessageBody.new (contentLength : Option HeaderValue)
    (payload : List StreamEvent) : HttpMessageBody :=
  let le : Option Nat × Option PayloadError :=
    match contentLength with
    | none => (none, none)
    | some .opaqueBytes => (none, some .unknownLength)
    | some (.ascii s) =>
      match parseUsize s with
      | some l =>
        (some l, if l > DEFAULT_CONFIG_LIMIT then some .overflow else none)
      | none => (none, some .unknownLength)
  { stream := payload
    limit := DEFAULT_CONFIG_LIMIT
    length := le.1
    buf := []
    err := le.2 }

/-- Embeds `HttpMessageBody::limit` (named `setLimit` because the field
projection already uses the name `limit`): re-evaluates the latched error
against the new ceiling when a declared length is known, and records the
new ceiling. -/
def HttpMessageBody.setLimit (self : HttpMessageBody) (limit : Nat) :
    HttpMessageBody :=
  let err := match self.length with
    | some l => if l > limit then some PayloadError.overflow else none
    | none => self.err
  { self with err := err, limit := limit }

/-- Outcome of one `Future::poll` call on `HttpMessageBody`:
`Poll::Pending` (with the updated buffer and remaining source),
`Poll::Ready(Ok(bytes))`, or `Poll::Ready(Err(e))`. -/
inductive DrainResult
  | pending (buf : List Nat) (rest : List StreamEvent)
  | ok (bytes : List Nat)
  | err (e : PayloadError)
  deriving DecidableEq, Repr

/-- Embeds the `loop` inside `<HttpMessageBody as Future>::poll`: pull the
next event from the source; on a chunk, fail with `Overflow` when
`buf.len() + chunk.len() > limit` and append otherwise; on a stream error,
forward it; on end of stream, freeze the buffer; on `Pending`, suspend.
An exhausted event list behaves as a source that is never ready. -/
def drain (limit : Nat) (buf : List Nat) :
    List StreamEvent → DrainResult
  | [] => .pending buf []
  | .pending :: rest => .pending buf rest
  | .chunk c :: rest =>
    if buf.length + c.length > limit then .err .overflow
    else drain limit (buf ++ c) rest
  | .error e :: _ => .err e
  | .eos :: _ => .ok buf

/-- Embeds `<HttpMessageBody as Future>::poll`: a latched error is
surfaced first, before the source is touched; otherwise the drain loop
runs.  For a source whose events are all ready (no `Pending`), one poll
call drives the aggregation to completion, so this is also the
run-to-completion result for such sources. -/
def HttpMessageBody.run (st : HttpMessageBody) : DrainResult :=
  match st.err with
  | some e => .err e
  | none => drain st.limit st.buf st.stream

/-- Result of one resumption step (one `ready!` suspension point inside
the poll loop): either the future completes, or it continues with an
updated state. -/
inductive StepRes
  | ready (r : DrainResult)
  | next (st : HttpMessageBody)
  deriving DecidableEq, Repr

/-- The per-resumption view of the same poll code: exactly one event of
the chunk source is requested per step, except that a latched error is
surfaced before any request is made.  `drain` is the transitive closure
of this step over ready events; `step_run_agrees` below ties the two. -/
def HttpMessageBody.step (st : HttpMessageBody) : StepRes :=
  match st.err with
  | some e => .ready (.err e)
  | none =>
    match st.stream with
    | [] => .next st
    | .pending :: rest => .next { st with stream := rest }
    | .chunk c :: rest =>
      if st.buf.length + c.length > st.limit then .ready (.err .overflow)
      else .next { st with buf := st.buf ++ c, stream := rest }
    | .error e :: _ => .ready (.err e)
    | .eos :: _ => .ok st.buf |> .ready

/-- Events of a chunk source delivering exactly the chunks `cs`, all
ready, followed by end of stream. -/
def chunksToEvents (cs : List (List Nat)) : List StreamEvent :=
  cs.map .chunk ++ [.eos]

/-- Embeds `mime::Mime` as its parsed essence; `check_mimetype` compares
parsed values for exact equality. -/
structure Mime where
  mainType : String
  subType : String
  deriving DecidableEq, Repr

/-- An underlying `Content-Type` parse failure from the collaborator
(`HttpMessage::mime_type`), carrying its payload so that forwarding
"unchanged" is observable. -/
inductive MimeParseError
  | parseErr (detail : String)
  deriving DecidableEq, Repr

/-- Errors this module produces towards callers: `ErrorBadRequest(msg)`
or a forwarded `Content-Type` parse error (`err.into()`). -/
inductive ExtractError
  | badRequest (msg : String)
  | contentTypeParse (e : MimeParseError)
  deriving DecidableEq, Repr

/-- Embeds `PayloadConfig` (the `limit` and optional required mime type). -/
structure PayloadConfig where
  limit : Nat
  mimetype : Option Mime
  deriving DecidableEq, Repr

/-- Embeds `PayloadConfig::check_mimetype`.  The collaborator call
`req.mime_type()` is passed in as its result: `Ok(Some(mime))`,
`Ok(None)` (no media type declared), or `Err(e)`. -/
def PayloadConfig.check_mimetype (cfg : PayloadConfig)
    (reqMimeType : Except MimeParseError (Option Mime)) :
    Except ExtractError Unit :=
  match cfg.mimetype with
  | some mt =>
    match reqMimeType with
    | .ok (some reqMt) =>
      if mt ≠ reqMt then .error (.badRequest "Unexpected Content-Type")
      else .ok ()
    | .ok none => .error (.badRequest "Content-Type is expected")
    | .error e => .error (.contentTypeParse e)
  | none => .ok ()

/-- Encodes one scalar value (a valid `Char`) as 1 to 4 UTF-8 bytes. -/
def encodeChar (c : Char) : List Nat :=
  let n := c.toNat
  if n < 0x80 then [n]
  else if n < 0x800 then
    [0xC0 + n / 0x40, 0x80 + n % 0x40]
  else if n < 0x10000 then
    [0xE0 + n / 0x1000, 0x80 + n / 0x40 % 0x40, 0x80 + n % 0x40]
  else
    [0xF0 + n / 0x40000, 0x80 + n / 0x1000 % 0x40, 0x80 + n / 0x40 % 0x40,
      0x80 + n % 0x40]

/-- Encodes a text (a list of scalar values) as UTF-8 bytes. -/
def encodeUtf8 (s : List Char) : List Nat :=
  (s.map encodeChar).flatten

/-- Strict byte-at-a-time UTF-8 validator and decoder.  The state is `none`
when the next byte must be a lead byte, and `some (need, v, minv)` in the
middle of a multi-byte sequence: `need` continuation bytes still
expected, `v` the value accumulated so far, `minv` the smallest scalar
value the sequence length is allowed to encode (overlong rejection). -/
def utf8Fold : Option (Nat × Nat × Nat) → List Nat → Option (List Char)
  | none, [] => some []
  | none, b :: rest =>
    if b < 0x80 then
      (utf8Fold none rest).map (fun cs => Char.ofNat b :: cs)
    else if b < 0xC2 then none
    else if b < 0xE0 then utf8Fold (some (1, b - 0xC0, 0x80)) rest
    else if b < 0xF0 then utf8Fold (some (2, b - 0xE0, 0x800)) rest
    else if b < 0xF5 then utf8Fold (some (3, b - 0xF0, 0x10000)) rest
    else none
  | some _, [] => none
  | some (need, v, minv), b :: rest =>
    if 0x80 ≤ b ∧ b < 0xC0 then
      let v' := v * 0x40 + (b - 0x80)
      if need = 1 then
        if minv ≤ v' ∧ ¬(0xD800 ≤ v' ∧ v' < 0xE000) ∧ v' < 0x110000 then
          (utf8Fold none rest).map (fun cs => Char.ofNat v' :: cs)
        else none
      else utf8Fold (some (need - 1, v', minv)) rest
    else none

/-- Strict UTF-8 decoding, embedding `str::from_utf8`'s validation:
rejects stray or missing continuation bytes, overlong forms, surrogate
code points, values above `U+10FFFF`, and truncated sequences. -/
def decodeUtf8 (l : List Nat) : Option (List Char) :=
  utf8Fold none l

/-- Embeds `encoding_rs::Encoding` as seen by this module: whether it is
`UTF_8` (the code compares the static references), and its
`decode_without_bom_handling_and_without_replacement` algorithm, an
external collaborator modelled as a function. -/
structure Encoding where
  isUtf8 : Bool
  decodeNoBomNoReplacement : List Nat → Option (List Char)

/-- Embeds `bytes_to_string`: strict UTF-8 decoding when the charset is
UTF-8, otherwise the charset's non-BOM-aware non-replacement decoding;
either failure is `ErrorBadRequest("Can not decode body")`. -/
def bytes_to_string (body : List Nat) (encoding : Encoding) :
    Except ExtractError (List Char) :=
  if encoding.isUtf8 then
    match decodeUtf8 body with
    | some s => .ok s
    | none => .error (.badRequest "Can not decode body")
  else
    match encoding.decodeNoBomNoReplacement body with
    | some s => .ok s
    | none => .error (.badRequest "Can not decode body")

theorem utf8Fold_ascii (b : Nat) (rest : List Nat) (h : b < 0x80) :
    utf8Fold none (b :: rest)
      = (utf8Fold none rest).map (fun cs => Char.ofNat b :: cs) := by
  simp only [utf8Fold]
  rw [if_pos h]

theorem utf8Fold_lead2 (b : Nat) (rest : List Nat) (h1 : 0xC2 ≤ b)
    (h2 : b < 0xE0) :
    utf8Fold none (b :: rest)
      = utf8Fold (some (1, b - 0xC0, 0x80)) rest := by
  simp only [utf8Fold]
  rw [if_neg (by omega), if_neg (by omega), if_pos h2]

theorem utf8Fold_lead3 (b : Nat) (rest : List Nat) (h1 : 0xE0 ≤ b)
    (h2 : b < 0xF0) :
    utf8Fold none (b :: rest)
      = utf8Fold (some (2, b - 0xE0, 0x800)) rest := by
  simp only [utf8Fold]
  rw [if_neg (by omega), if_neg (by omega), if_neg (by omega), if_pos h2]

theorem utf8Fold_lead4 (b : Nat) (rest : List Nat) (h1 : 0xF0 ≤ b)
    (h2 : b < 0xF5) :
    utf8Fold none (b :: rest)
      = utf8Fold (some (3, b - 0xF0, 0x10000)) rest := by
  simp only [utf8Fold]
  rw [if_neg (by omega), if_neg (by omega), if_neg (by omega),
    if_neg (by omega), if_pos h2]

theorem utf8Fold_cont (need v minv b : Nat) (rest : List Nat)
    (h : 0x80 ≤ b ∧ b < 0xC0) (hneed : ¬need = 1) :
    utf8Fold (some (need, v, minv)) (b :: rest)
      = utf8Fold (some (need - 1, v * 0x40 + (b - 0x80), minv)) rest := by
  simp only [utf8Fold]
  rw [if_pos h, if_neg hneed]

theorem utf8Fold_last (v minv b : Nat) (rest : List Nat)
    (h : 0x80 ≤ b ∧ b < 0xC0)
    (hv : minv ≤ v * 0x40 + (b - 0x80)
      ∧ ¬(0xD800 ≤ v * 0x40 + (b - 0x80) ∧ v * 0x40 + (b - 0x80) < 0xE000)
      ∧ v * 0x40 + (b - 0x80) < 0x110000) :
    utf8Fold (some (1, v, minv)) (b :: rest)
      = (utf8Fold none rest).map
          (fun cs => Char.ofNat (v * 0x40 + (b - 0x80)) :: cs) := by
  simp only [utf8Fold]
  rw [if_pos h, if_pos trivial, if_pos hv]

theorem decodeUtf8_encodeChar (c : Char) (l : List Nat) :
    decodeUtf8 (encodeChar c ++ l)
      = (decodeUtf8 l).map (fun cs => c :: cs) := by
  have hv : c.toNat.isValidChar := c.valid
  have hn : c.toNat < 0xD800 ∨ (0xDFFF < c.toNat ∧ c.toNat < 0x110000) := hv
  simp only [decodeUtf8]
  by_cases h1 : c.toNat < 0x80
  · have he : encodeChar c = [c.toNat] := by
      simp only [encodeChar]; rw [if_pos h1]
    rw [he, List.cons_append, List.nil_append, utf8Fold_ascii _ _ h1]
    simp only [Char.ofNat_toNat]
  · by_cases h2 : c.toNat < 0x800
    · have he : encodeChar c
          = [0xC0 + c.toNat / 0x40, 0x80 + c.toNat % 0x40] := by
        simp only [encodeChar]; rw [if_neg h1, if_pos h2]
      rw [he, List.cons_append, List.cons_append, List.nil_append,
        utf8Fold_lead2 _ _ (by omega) (by omega),
        utf8Fold_last _ _ _ _ (by omega) (by omega)]
      have hval : (0xC0 + c.toNat / 0x40 - 0xC0) * 0x40
          + (0x80 + c.toNat % 0x40 - 0x80) = c.toNat := by omega
      simp only [hval, Char.ofNat_toNat]
    · by_cases h3 : c.toNat < 0x10000
      · have he : encodeChar c
            = [0xE0 + c.toNat / 0x1000, 0x80 + c.toNat / 0x40 % 0x40,
                0x80 + c.toNat % 0x40] := by
          simp only [encodeChar]; rw [if_neg h1, if_neg h2, if_pos h3]
        rw [he, List.cons_append, List.cons_append, List.cons_append,
          List.nil_append, utf8Fold_lead3 _ _ (by omega) (by omega),
          utf8Fold_cont _ _ _ _ _ (by omega) (by omega)]
        have hs : (2 : Nat) - 1 = 1 := rfl
        have hval2 : (0xE0 + c.toNat / 0x1000 - 0xE0) * 0x40
            + (0x80 + c.toNat / 0x40 % 0x40 - 0x80) = c.toNat / 0x40 := by
          omega
        rw [hs, hval2, utf8Fold_last _ _ _ _ (by omega) (by omega)]
        have hval3 : c.toNat / 0x40 * 0x40 + (0x80 + c.toNat % 0x40 - 0x80)
            = c.toNat := by omega
        simp only [hval3, Char.ofNat_toNat]
      · have he : encodeChar c
            = [0xF0 + c.toNat / 0x40000, 0x80 + c.toNat / 0x1000 % 0x40,
                0x80 + c.toNat / 0x40 % 0x40, 0x80 + c.toNat % 0x40] := by
          simp only [encodeChar]; rw [if_neg h1, if_neg h2, if_neg h3]
        rw [he, List.cons_append, List.cons_append, List.cons_append,
          List.cons_append, List.nil_append,
          utf8Fold_lead4 _ _ (by omega) (by omega),
          utf8Fold_cont _ _ _ _ _ (by omega) (by omega)]
        have hs : (3 : Nat) - 1 = 2 := rfl
        have hval1 : (0xF0 + c.toNat / 0x40000 - 0xF0) * 0x40
            + (0x80 + c.toNat / 0x1000 % 0x40 - 0x80)
            = c.toNat / 0x1000 := by omega
        rw [hs, hval1, utf8Fold_cont _ _ _ _ _ (by omega) (by omega)]
        have hs2 : (2 : Nat) - 1 = 1 := rfl
        have hval2 : c.toNat / 0x1000 * 0x40
            + (0x80 + c.toNat / 0x40 % 0x40 - 0x80) = c.toNat / 0x40 := by
          omega
        rw [hs2, hval2, utf8Fold_last _ _ _ _ (by omega) (by omega)]
        have hval3 : c.toNat / 0x40 * 0x40 + (0x80 + c.toNat % 0x40 - 0x80)
            = c.toNat := by omega
        simp only [hval3, Char.ofNat_toNat]

theorem decodeUtf8_encodeUtf8 (s : List Char) :
    decodeUtf8 (encodeUtf8 s) = some s := by
  induction s with
  | nil => rfl
  | cons c cs ih =>
    show decodeUtf8 (encodeChar c ++ (cs.map encodeChar).flatten) = _
    rw [decodeUtf8_encodeChar]
    show (decodeUtf8 (encodeUtf8 cs)).map _ = _
    rw [ih]
    rfl

theorem drain_chunk (n : Nat) (buf c : List Nat)
    (rest : List StreamEvent) (hc : ¬buf.length + c.length > n) :
    drain n buf (.chunk c :: rest) = drain n (buf ++ c) rest := by
  simp only [drain]
  rw [if_neg hc]

theorem drain_chunk_over (n : Nat) (buf c : List Nat)
    (rest : List StreamEvent) (hc : buf.length + c.length > n) :
    drain n buf (.chunk c :: rest) = .err .overflow := by
  simp only [drain]
  rw [if_pos hc]

theorem drain_ok (cs : List (List Nat)) (n : Nat) (buf : List Nat)
    (h : buf.length + cs.flatten.length ≤ n) :
    drain n buf (cs.map .chunk ++ [.eos]) = .ok (buf ++ cs.flatten) := by
  induction cs generalizing buf with
  | nil => simp [drain]
  | cons c cs ih =>
    have hlen : buf.length + c.length + cs.flatten.length ≤ n := by
      simp only [List.flatten_cons, List.length_append] at h
      omega
    have hc : ¬buf.length + c.length > n := by omega
    rw [List.map_cons, List.cons_append, drain_chunk n buf c _ hc]
    have h2 : (buf ++ c).length + cs.flatten.length ≤ n := by
      simp only [List.length_append]
      omega
    rw [ih (buf ++ c) h2]
    simp [List.append_assoc]

theorem drain_overflow (cs : List (List Nat)) (n : Nat) (buf : List Nat)
    (evs : List StreamEvent) (hb : buf.length ≤ n)
    (h : n < buf.length + cs.flatten.length) :
    drain n buf (cs.map .chunk ++ evs) = .err .overflow := by
  induction cs generalizing buf with
  | nil =>
    simp only [List.flatten_nil, List.length_nil] at h
    omega
  | cons c cs ih =>
    by_cases hc : buf.length + c.length > n
    · rw [List.map_cons, List.cons_append, drain_chunk_over n buf c _ hc]
    · rw [List.map_cons, List.cons_append, drain_chunk n buf c _ hc]
      have hb2 : (buf ++ c).length ≤ n := by
        simp only [List.length_append]
        omega
      have h2 : n < (buf ++ c).length + cs.flatten.length := by
        simp only [List.flatten_cons, List.length_append] at h ⊢
        omega
      exact ih (buf ++ c) hb2 h2

theorem new_absent (p : List StreamEvent) :
    HttpMessageBody.new none p
      = ⟨DEFAULT_CONFIG_LIMIT, none, p, [], none⟩ := rfl

theorem new_parsed (s : String) (l : Nat) (p : List StreamEvent)
    (h : parseUsize s = some l) :
    HttpMessageBody.new (some (.ascii s)) p
      = ⟨DEFAULT_CONFIG_LIMIT, some l, p, [],
          if l > DEFAULT_CONFIG_LIMIT then some .overflow else none⟩ := by
  simp only [HttpMessageBody.new, h]

theorem new_unparseable (s : String) (p : List StreamEvent)
    (h : parseUsize s = none) :
    HttpMessageBody.new (some (.ascii s)) p
      = ⟨DEFAULT_CONFIG_LIMIT, none, p, [], some .unknownLength⟩ := by
  simp only [HttpMessageBody.new, h]

theorem new_opaque (p : List StreamEvent) :
    HttpMessageBody.new (some .opaqueBytes) p
      = ⟨DEFAULT_CONFIG_LIMIT, none, p, [], some .unknownLength⟩ := rfl

theorem setLimit_some (st : HttpMessageBody) (l n : Nat)
    (h : st.length = some l) :
    st.setLimit n
      = { st with
          err := if l > n then some .overflow else none
          limit := n } := by
  simp only [HttpMessageBody.setLimit, h]

theorem setLimit_none (st : HttpMessageBody) (n : Nat)
    (h : st.length = none) :
    st.setLimit n = { st with limit := n } := by
  simp only [HttpMessageBody.setLimit, h]

theorem run_err (st : HttpMessageBody) (e : PayloadError)
    (h : st.err = some e) : st.run = .err e := by
  simp only [HttpMessageBody.run, h]

theorem run_noerr (st : HttpMessageBody) (h : st.err = none) :
    st.run = drain st.limit st.buf st.stream := by
  simp only [HttpMessageBody.run, h]

theorem step_err (st : HttpMessageBody) (e : PayloadError)
    (h : st.err = some e) : st.step = .ready (.err e) := by
  simp only [HttpMessageBody.step, h]

example :
    (HttpMessageBody.new none (chunksToEvents [[1, 2], [3]])).run
      = .ok [1, 2, 3] := by decide

/-- Claim C1: for every chunking `cs` of a byte sequence whose total length is
within the limit, driving `HttpMessageBody` to completion over a stream
delivering those chunks followed by end-of-stream yields exactly the
concatenation of the chunks, independent of where the boundaries fall. -/
theorem spec_C1 (cs : List (List Nat)) (n : Nat)
    (h : cs.flatten.length ≤ n) :
    ((HttpMessageBody.new none (chunksToEvents cs)).setLimit n).run
      = .ok cs.flatten := by
  rw [new_absent, setLimit_none _ _ rfl, run_noerr _ rfl]
  show drain n [] (cs.map .chunk ++ [.eos]) = _
  rw [drain_ok cs n [] (by simpa using h)]
  simp

/-- Witness for C1 at a concrete chunking. -/
theorem spec_C1_witness :
    ((HttpMessageBody.new none (chunksToEvents [[1, 2], [3]])).setLimit
      3).run = .ok ([[1, 2], [3]] : List (List Nat)).flatten :=
  spec_C1 [[1, 2], [3]] 3 (by decide)

/-- Claim C2: for every chunking whose total length exceeds the limit the
aggregator fails with `Overflow`; the failure needs no events beyond the
first prefix of chunks whose cumulative length exceeds the limit (second
conjunct, which drains only such a prefix); and the check is strict, so a
stream whose total lands exactly on the limit is accepted (third
conjunct). -/
theorem spec_C2 (cs : List (List Nat)) (n : Nat)
    (h : n < cs.flatten.length) :
    ((HttpMessageBody.new none (chunksToEvents cs)).setLimit n).run
        = .err .overflow
    ∧ (∀ k, n < (cs.take k).flatten.length →
        drain n [] ((cs.take k).map .chunk) = .err .overflow)
    ∧ ∀ (ds : List (List Nat)) (d : List Nat),
        ((HttpMessageBody.new none
          (chunksToEvents (ds ++ [d]))).setLimit
            (ds.flatten.length + d.length)).run
          = .ok (ds ++ [d]).flatten := by
  refine ⟨?_, ?_, ?_⟩
  · rw [new_absent, setLimit_none _ _ rfl, run_noerr _ rfl]
    show drain n [] (cs.map .chunk ++ [.eos]) = _
    exact drain_overflow cs n [] [.eos] (by simp) (by simpa using h)
  · intro k hk
    have ho := drain_overflow (cs.take k) n [] [] (by simp)
      (by simpa using hk)
    simpa using ho
  · intro ds d
    rw [new_absent, setLimit_none _ _ rfl, run_noerr _ rfl]
    show drain _ [] ((ds ++ [d]).map .chunk ++ [.eos]) = _
    have hlen : ([] : List Nat).length + (ds ++ [d]).flatten.length
        ≤ ds.flatten.length + d.length := by
      simp [List.flatten_append]
    rw [drain_ok _ _ [] hlen]
    simp

/-- Witness for C2 at a concrete over-limit chunking. -/
theorem spec_C2_witness :
    ((HttpMessageBody.new none (chunksToEvents [[1, 2, 3]])).setLimit
      2).run = .err .overflow :=
  (spec_C2 [[1, 2, 3]] 2 (by decide)).1

/-- Claim C3: a `Content-Length` header that parses to a value above the active
limit arms a latched `Overflow`, surfaced on the first poll before any
chunk is consumed (the result holds for every stream, in particular
streams shorter than the limit, and the single-step view fails without
touching the stream). -/
theorem spec_C3 (s : String) (l n : Nat) (payload : List StreamEvent)
    (hp : parseUsize s = some l) (hn : n < l) :
    ((HttpMessageBody.new (some (.ascii s)) payload).setLimit n).run
        = .err .overflow
    ∧ ((HttpMessageBody.new (some (.ascii s)) payload).setLimit n).step
        = .ready (.err .overflow) := by
  rw [new_parsed s l payload hp, setLimit_some _ l n rfl,
    if_pos (show l > n by omega)]
  exact ⟨run_err _ _ rfl, step_err _ _ rfl⟩

/-- Witness for C3: declared length 10 against limit 5, with a stream
that would deliver a single short chunk. -/
theorem spec_C3_witness :
    ((HttpMessageBody.new (some (.ascii "10"))
      (chunksToEvents [[1]])).setLimit 5).run = .err .overflow :=
  (spec_C3 "10" 10 5 (chunksToEvents [[1]]) (by decide) (by decide)).1

/-- Claim C4: a `Content-Length` header that is not a valid unsigned integer
arms a latched `UnknownLength` error, surfaced on the first poll with
zero chunks consumed, regardless of the payload; the same holds when the
header bytes are not even a string. -/
theorem spec_C4 (s : String) (payload : List StreamEvent)
    (h : parseUsize s = none) :
    (HttpMessageBody.new (some (.ascii s)) payload).run
        = .err .unknownLength
    ∧ (HttpMessageBody.new (some (.ascii s)) payload).step
        = .ready (.err .unknownLength)
    ∧ (HttpMessageBody.new (some .opaqueBytes) payload).run
        = .err .unknownLength := by
  rw [new_unparseable s payload h, new_opaque]
  exact ⟨run_err _ _ rfl, step_err _ _ rfl, run_err _ _ rfl⟩

/-- Witness for C4 with the spec's concrete header value `"xxxx"`. -/
theorem spec_C4_witness :
    (HttpMessageBody.new (some (.ascii "xxxx"))
      (chunksToEvents [[1]])).run = .err .unknownLength :=
  (spec_C4 "xxxx" (chunksToEvents [[1]]) (by decide)).1

example :
    ((HttpMessageBody.new none (chunksToEvents [[1, 2], [3]])).setLimit
      2).run = .err .overflow := by decide

example :
    (HttpMessageBody.new (some (.ascii "xxxx")) (chunksToEvents [])).run
      = .err .unknownLength := by decide

example :
    (HttpMessageBody.new (some (.ascii "1000000")) (chunksToEvents [])).run
      = .err .overflow := by decide

/-- Claim C5: with no required mime type `check_mimetype` always succeeds; with
a required type `m` it succeeds iff the request's media type parsed as
exactly `m`, fails with `BadRequest("Unexpected Content-Type")` on a
different parsed type, fails with `BadRequest("Content-Type is
expected")` when no media type is declared, and forwards an underlying
parse error unchanged. -/
theorem spec_C5 (cfg : PayloadConfig)
    (r : Except MimeParseError (Option Mime)) :
    (cfg.mimetype = none → cfg.check_mimetype r = .ok ())
    ∧ ∀ m, cfg.mimetype = some m →
      ((cfg.check_mimetype r = .ok ()) ↔ r = .ok (some m))
      ∧ (∀ rm, r = .ok (some rm) → rm ≠ m →
          cfg.check_mimetype r
            = .error (.badRequest "Unexpected Content-Type"))
      ∧ (r = .ok none →
          cfg.check_mimetype r
            = .error (.badRequest "Content-Type is expected"))
      ∧ ∀ e, r = .error e →
          cfg.check_mimetype r = .error (.contentTypeParse e) := by
  refine ⟨fun h => by simp [PayloadConfig.check_mimetype, h],
    fun m hm => ?_⟩
  cases r with
  | error e =>
    have hc : cfg.check_mimetype (.error e)
        = .error (.contentTypeParse e) := by
      simp [PayloadConfig.check_mimetype, hm]
    refine ⟨?_, ?_, ?_, ?_⟩
    · rw [hc]
      constructor
      · intro h
        cases h
      · intro h
        cases h
    · intro rm h
      cases h
    · intro h
      cases h
    · intro e' h
      cases h
      exact hc
  | ok o =>
    cases o with
    | none =>
      have hc : cfg.check_mimetype (.ok none)
          = .error (.badRequest "Content-Type is expected") := by
        simp [PayloadConfig.check_mimetype, hm]
      refine ⟨?_, ?_, ?_, ?_⟩
      · rw [hc]
        constructor
        · intro h
          cases h
        · intro h
          cases h
      · intro rm h
        cases h
      · intro h
        exact hc
      · intro e h
        cases h
    | some rm =>
      by_cases he : m = rm
      · subst he
        have hc : cfg.check_mimetype (.ok (some m)) = .ok () := by
          simp [PayloadConfig.check_mimetype, hm]
        refine ⟨?_, ?_, ?_, ?_⟩
        · rw [hc]
          simp
        · intro rm' h hne
          exfalso
          exact hne (Option.some.inj (Except.ok.inj h)).symm
        · intro h
          cases h
        · intro e h
          cases h
      · have hc : cfg.check_mimetype (.ok (some rm))
            = .error (.badRequest "Unexpected Content-Type") := by
          simp only [PayloadConfig.check_mimetype, hm]
          rw [if_pos he]
        refine ⟨?_, ?_, ?_, ?_⟩
        · rw [hc]
          constructor
          · intro h
            cases h
          · intro h
            exact absurd (Option.some.inj (Except.ok.inj h)).symm he
        · intro rm' h hne
          exact hc
        · intro h
          cases h
        · intro e h
          cases h

/-- Witness for C5: required type `application/json`, request declaring
exactly that type, succeeds. -/
theorem spec_C5_witness :
    (PayloadConfig.mk 100 (some (Mime.mk "application" "json"))
      ).check_mimetype (.ok (some (Mime.mk "application" "json")))
      = .ok () :=
  ((spec_C5 _ _).2 _ rfl).1.mpr rfl

/-- Claim C6: the text-decoding stage decodes strictly via UTF-8 when the
resolved charset is UTF-8 (yielding the UTF-8 interpretation of the
bytes, hence recovering any UTF-8-encoded text, and failing with
`BadRequest("Can not decode body")` on invalid UTF-8), and otherwise
yields exactly the charset's non-BOM-aware non-replacement decoding,
failing the same way on undecodable input. -/
theorem spec_C6 (body : List Nat) (enc : Encoding) :
    (enc.isUtf8 = true →
      (∀ s, decodeUtf8 body = some s → bytes_to_string body enc = .ok s)
      ∧ (decodeUtf8 body = none →
          bytes_to_string body enc
            = .error (.badRequest "Can not decode body"))
      ∧ ∀ s : List Char, bytes_to_string (encodeUtf8 s) enc = .ok s)
    ∧ (enc.isUtf8 = false →
      (∀ s, enc.decodeNoBomNoReplacement body = some s →
          bytes_to_string body enc = .ok s)
      ∧ (enc.decodeNoBomNoReplacement body = none →
          bytes_to_string body enc
            = .error (.badRequest "Can not decode body"))) := by
  constructor
  · intro hu
    refine ⟨?_, ?_, ?_⟩
    · intro s hs
      simp [bytes_to_string, hu, hs]
    · intro hs
      simp [bytes_to_string, hu, hs]
    · intro s
      simp [bytes_to_string, hu, decodeUtf8_encodeUtf8]
  · intro hu
    constructor
    · intro s hs
      simp [bytes_to_string, hu, hs]
    · intro hs
      simp [bytes_to_string, hu, hs]

/-- Witness for C6: UTF-8 charset recovers an encoded two-character
text. -/
theorem spec_C6_witness :
    bytes_to_string (encodeUtf8 ['A', 'b'])
      (Encoding.mk true (fun _ => none)) = .ok ['A', 'b'] :=
  ((spec_C6 [] (Encoding.mk true (fun _ => none))).1 rfl).2.2 ['A', 'b']

/-- Claim C7: `limit(n)` before the first poll re-evaluates the latched state
against the new ceiling when a declared length is known ((re)arming
`Overflow` when the length exceeds `n`, clearing it otherwise), and in
all cases the active ceiling becomes `n` while the other state is kept. -/
theorem spec_C7 (st : HttpMessageBody) (n : Nat) :
    (∀ l, st.length = some l → n < l →
        (st.setLimit n).err = some .overflow)
    ∧ (∀ l, st.length = some l → l ≤ n → (st.setLimit n).err = none)
    ∧ (st.setLimit n).limit = n
    ∧ (st.setLimit n).length = st.length
    ∧ (st.setLimit n).stream = st.stream
    ∧ (st.setLimit n).buf = st.buf := by
  refine ⟨?_, ?_, rfl, rfl, rfl, rfl⟩
  · intro l hl hn
    rw [setLimit_some st l n hl]
    show (if l > n then some PayloadError.overflow else none) = _
    rw [if_pos (show l > n by omega)]
  · intro l hl hn
    rw [setLimit_some st l n hl]
    show (if l > n then some PayloadError.overflow else none) = _
    rw [if_neg (show ¬l > n by omega)]

/-- Witness for C7: declared length 10, new ceiling 5, latched overflow
is armed. -/
theorem spec_C7_witness :
    ((HttpMessageBody.new (some (.ascii "10"))
      (chunksToEvents [])).setLimit 5).err = some .overflow :=
  (spec_C7 (HttpMessageBody.new (some (.ascii "10"))
    (chunksToEvents [])) 5).1 10 (by decide) (by decide)

/-- Iterate the per-resumption step with fuel. -/
def stepIter : Nat → HttpMessageBody → StepRes
  | 0, st => .next st
  | fuel + 1, st =>
    match st.step with
    | .ready r => .ready r
    | .next st' => stepIter fuel st'

/-- The per-resumption view agrees with the poll-loop view: over a chunk
source with no `Pending` events, iterating `step` reaches exactly the
result of `drain`, whenever that result is not itself a suspension. -/
theorem step_run_agrees (evs : List StreamEvent) (n : Nat)
    (length : Option Nat) (buf : List Nat)
    (hnp : StreamEvent.pending ∉ evs)
    (hok : ∀ b r, drain n buf evs ≠ .pending b r) :
    stepIter (evs.length + 1) ⟨n, length, evs, buf, none⟩
      = .ready (drain n buf evs) := by
  induction evs generalizing buf with
  | nil => exact absurd rfl (hok buf [])
  | cons ev rest ih =>
    cases ev with
    | pending => exact absurd (List.mem_cons_self _ _) hnp
    | chunk c =>
      have hnp' : StreamEvent.pending ∉ rest := by
        intro hmem
        exact hnp (List.mem_cons_of_mem _ hmem)
      by_cases hov : buf.length + c.length > n
      · have hstep : (⟨n, length, .chunk c :: rest, buf, none⟩ :
            HttpMessageBody).step = .ready (.err .overflow) := by
          simp [HttpMessageBody.step, hov]
        show stepIter (rest.length + 1 + 1) _ = _
        simp only [stepIter, hstep]
        rw [drain_chunk_over n buf c rest hov]
      · have hstep : (⟨n, length, .chunk c :: rest, buf, none⟩ :
            HttpMessageBody).step
              = .next ⟨n, length, rest, buf ++ c, none⟩ := by
          simp [HttpMessageBody.step, hov]
        have hok' : ∀ b r, drain n (buf ++ c) rest ≠ .pending b r := by
          intro b r hdr
          exact hok b r (by rw [drain_chunk n buf c rest hov, hdr])
        show stepIter (rest.length + 1 + 1) _ = _
        simp only [stepIter, hstep]
        rw [drain_chunk n buf c rest hov]
        exact ih (buf ++ c) hnp' hok'
    | error e =>
      have hstep : (⟨n, length, .error e :: rest, buf, none⟩ :
          HttpMessageBody).step = .ready (.err e) := by
        simp [HttpMessageBody.step]
      show stepIter (rest.length + 1 + 1) _ = _
      simp only [stepIter, hstep]
      rfl
    | eos =>
      have hstep : (⟨n, length, .eos :: rest, buf, none⟩ :
          HttpMessageBody).step = .ready (.ok buf) := by
        simp [HttpMessageBody.step]
      show stepIter (rest.length + 1 + 1) _ = _
      simp only [stepIter, hstep]
      rfl

/-- Claim C8: each resumption step consumes at most one event of the chunk
source (the new state's source is the old one or its tail, and the buffer
grows by at most the head chunk), and a latched error is surfaced
immediately, for every possible source, without consuming anything. -/
theorem spec_C8 (st : HttpMessageBody) :
    (∀ e, st.err = some e →
        ∀ s, HttpMessageBody.step { st with stream := s }
          = .ready (.err e))
    ∧ ∀ st', st.step = .next st' →
        (st'.stream = st.stream ∨ st'.stream = st.stream.tail)
        ∧ (st'.buf = st.buf
          ∨ ∃ c, st.stream.head? = some (.chunk c)
              ∧ st'.buf = st.buf ++ c) := by
  constructor
  · intro e he s
    exact step_err _ e he
  · intro st' hstep
    cases he : st.err with
    | some e =>
      rw [step_err st e he] at hstep
      cases hstep
    | none =>
      cases hs : st.stream with
      | nil =>
        have h1 : st.step = .next st := by
          simp [HttpMessageBody.step, he, hs]
        rw [h1] at hstep
        cases hstep
        exact ⟨Or.inl hs, Or.inl rfl⟩
      | cons ev rest =>
        cases ev with
        | pending =>
          have h1 : st.step = .next { st with stream := rest } := by
            simp [HttpMessageBody.step, he, hs]
          rw [h1] at hstep
          cases hstep
          exact ⟨Or.inr rfl, Or.inl rfl⟩
        | chunk c =>
          by_cases hov : st.buf.length + c.length > st.limit
          · have h1 : st.step = .ready (.err .overflow) := by
              simp [HttpMessageBody.step, he, hs, hov]
            rw [h1] at hstep
            cases hstep
          · have h1 : st.step
                = .next { st with buf := st.buf ++ c, stream := rest } := by
              simp [HttpMessageBody.step, he, hs, hov]
            rw [h1] at hstep
            cases hstep
            exact ⟨Or.inr rfl, Or.inr ⟨c, rfl, rfl⟩⟩
        | error e =>
          have h1 : st.step = .ready (.err e) := by
            simp [HttpMessageBody.step, he, hs]
          rw [h1] at hstep
          cases hstep
        | eos =>
          have h1 : st.step = .ready (.ok st.buf) := by
            simp [HttpMessageBody.step, he, hs]
          rw [h1] at hstep
          cases hstep

/-- Witness for C8: a latched overflow is surfaced by the step with the
chunk still in the source. -/
theorem spec_C8_witness :
    HttpMessageBody.step ⟨10, none, [.chunk [1]], [], some .overflow⟩
      = .ready (.err .overflow) :=
  (spec_C8 ⟨10, none, [], [], some .overflow⟩).1 .overflow rfl
    [.chunk [1]]

/-- Claim C9: `limit(n)` never clears a latched `UnknownLength`: when no
declared length is recorded the latched error is untouched, and in
particular an unparseable `Content-Length` still fails with
`UnknownLength` after any `limit(n)`. -/
theorem spec_C9 (st : HttpMessageBody) (n : Nat) (h : st.length = none) :
    (st.setLimit n).err = st.err
    ∧ ∀ s payload, parseUsize s = none →
        ((HttpMessageBody.new (some (.ascii s)) payload).setLimit n).err
            = some .unknownLength
        ∧ ((HttpMessageBody.new (some (.ascii s)) payload).setLimit
            n).run = .err .unknownLength := by
  constructor
  · rw [setLimit_none st n h]
  · intro s payload hs
    rw [new_unparseable s payload hs, setLimit_none _ _ rfl]
    exact ⟨rfl, run_err _ _ rfl⟩

/-- Witness for C9: the unparseable header `"xxxx"` still fails with
`UnknownLength` after `limit(7)`. -/
theorem spec_C9_witness :
    ((HttpMessageBody.new (some (.ascii "xxxx")) []).setLimit 7).err
      = some .unknownLength :=
  ((spec_C9 ⟨0, none, [], [], none⟩ 7 rfl).2 "xxxx" [] (by decide)).1

/-- Claim C10: a parsed declared length within the limit is never checked
against the delivered bytes: for any chunking whose total stays within
the limit, aggregation succeeds with exactly the delivered bytes, with no
hypothesis relating the declared length to the stream. -/
theorem spec_C10 (s : String) (l n : Nat) (cs : List (List Nat))
    (hp : parseUsize s = some l) (hl : l ≤ n)
    (hb : cs.flatten.length ≤ n) :
    ((HttpMessageBody.new (some (.ascii s))
      (chunksToEvents cs)).setLimit n).run = .ok cs.flatten := by
  rw [new_parsed s l _ hp, setLimit_some _ l n rfl,
    if_neg (show ¬l > n by omega), run_noerr _ rfl]
  show drain n [] (cs.map .chunk ++ [.eos]) = _
  rw [drain_ok cs n [] (by simpa using hb)]
  simp

/-- Witness for C10: declared length 5 but only 2 bytes delivered; the
aggregation still succeeds with the delivered bytes. -/
theorem spec_C10_witness :
    ((HttpMessageBody.new (some (.ascii "5"))
      (chunksToEvents [[1, 2]])).setLimit 100).run
      = .ok ([[1, 2]] : List (List Nat)).flatten :=
  spec_C10 "5" 5 100 [[1, 2]] (by decide) (by decide) (by decide)
